import Mathlib

/-!
Shallow embedding of cmd/lspipeline/main.go (package main).

The program polls an AWS CodePipeline state and renders it as a terminal
dashboard. External collaborators (the AWS SDK client, the tcell screen,
the go-runewidth table) are modelled as explicit data:
the SDK call results become Except values, screen writes become lists of
cell records, and the rune-width table is a Lean function restricted to
the character classes this development exercises. Go int arithmetic is
modelled with Int, Go integer division (which truncates toward zero) with
Int.tdiv. Go len on the strings involved is modelled with String.length;
all strings the claims evaluate are such that byte length and rune count
agree where it matters for the arithmetic.
-/

/-- RemoteError models any error value returned by the CodePipeline
collaborator (ListPipelinesPages or GetPipelineState). The Go code never
inspects it: it only panics with it. -/
structure RemoteError where
  msg : String
deriving DecidableEq, Repr

/-- Model of tcell.Color restricted to the colors named in main.go.
In tcell v2 the zero value of Color is ColorDefault, which is what a Go
map lookup yields for a missing key; defaultColor models that zero value. -/
inductive Color where
  | defaultColor
  | green
  | blue
  | red
  | slateGray
  | brown
  | sandyBrown
deriving DecidableEq, Repr

/-- Model of tcell.Style restricted to what main.go uses: a foreground
color (tcell.StyleDefault.Foreground(color)). -/
structure Style where
  fg : Color
deriving DecidableEq, Repr

/-- tcell.StyleDefault: zero style, default foreground. -/
def styleDefault : Style := ⟨Color.defaultColor⟩

/-- tcell Style.Foreground: replace the foreground color. -/
def Style.foreground (st : Style) (c : Color) : Style := { st with fg := c }

/-- The statusColors map literal of main.go, lines 67 to 74. The keys are
the values of the codepipeline StageExecutionStatus constants, which equal
their names. -/
def statusColors : List (String × Color) :=
  [("Succeeded", Color.green),
   ("InProgress", Color.blue),
   ("Failed", Color.red),
   ("Cancelled", Color.slateGray),
   ("Stopped", Color.brown),
   ("Stopping", Color.sandyBrown)]

/-- Go map indexing statusColors[executionStatus] (main.go line 79): a
lookup that falls back to the zero value of tcell.Color (ColorDefault)
when the key is absent, per Go map semantics. -/
def colorFor (status : String) : Color :=
  (((statusColors.find? (fun p => p.1 == status)).map Prod.snd)).getD Color.defaultColor

/-- Broken-down local calendar time of an instant, as produced by Go
t.In(time.Local): the fields that the Format layout of main.go reads,
plus the zone abbreviation that the layout token MST would read. -/
structure LocalDT where
  hour : Nat
  minute : Nat
  second : Nat
  day : Nat
  month : Nat
  year : Nat
  zone : String
deriving DecidableEq, Repr

/-- Model of Go time.Time as used by main.go: the instant in nanoseconds
(now.Sub(t) is ns subtraction) together with its broken-down local
representation (what the Format call reads). The time-zone
database conversion lives outside the embedding: local is data. -/
structure GoTime where
  ns : Int
  localTime : LocalDT
deriving DecidableEq, Repr

def nsPerSecond : Int := 1000000000

def nsPerMinute : Int := 60000000000

/-- Zero-pad a natural number to two digits, as the Go layout tokens
15, 04, 05, 02, 01 do. -/
def pad2 (n : Nat) : String :=
  if n < 10 then "0" ++ toString n else toString n

/-- Zero-pad a year to four digits, as the Go layout token 2006 does. -/
def pad4 (n : Nat) : String :=
  if n < 10 then "000" ++ toString n
  else if n < 100 then "00" ++ toString n
  else if n < 1000 then "0" ++ toString n
  else toString n

/-- Go time layout interpreter (time.Time.Format), restricted to the
reference-layout tokens that can occur in the layout string of main.go:
15 (hour), 04 (minute), 05 (second), 02 (day), 01 (month), 2006 (year),
MST (zone abbreviation). Any other character is copied literally, exactly
as Go does; in particular the letters P and T match no token. -/
def goFormatAux (dt : LocalDT) : List Char → String
  | '2' :: '0' :: '0' :: '6' :: rest => pad4 dt.year ++ goFormatAux dt rest
  | '1' :: '5' :: rest => pad2 dt.hour ++ goFormatAux dt rest
  | '0' :: '4' :: rest => pad2 dt.minute ++ goFormatAux dt rest
  | '0' :: '5' :: rest => pad2 dt.second ++ goFormatAux dt rest
  | '0' :: '2' :: rest => pad2 dt.day ++ goFormatAux dt rest
  | '0' :: '1' :: rest => pad2 dt.month ++ goFormatAux dt rest
  | 'M' :: 'S' :: 'T' :: rest => dt.zone ++ goFormatAux dt rest
  | c :: rest => String.singleton c ++ goFormatAux dt rest
  | [] => ""

/-- t.Format(layout) for a time with local broken-down form dt. -/
def goFormat (layout : String) (dt : LocalDT) : String :=
  goFormatAux dt layout.data

/-- The dateFormat constant of main.go line 21. -/
def dateFormat : String := "15:04:05 02-01-2006 PT"

/-- prettyPrintTime of main.go lines 155 to 167.
diff is now.Sub(t) in nanoseconds; int(diff.Minutes()) and
int(diff.Seconds()) truncate toward zero, modelled by Int.tdiv (the
float64 detour is exact on every duration this development evaluates). -/
def prettyPrintTime (now t : GoTime) : String :=
  let diff := now.ns - t.ns
  let minutes := Int.tdiv diff nsPerMinute
  let seconds := Int.tdiv diff nsPerSecond
  if 30 ≤ minutes then
    goFormat dateFormat t.localTime
  else if 0 < minutes then
    toString minutes ++ " minutes, " ++ toString seconds ++ " seconds ago"
  else
    toString seconds ++ " seconds ago"

/-- Spec-side absolute timestamp format, written from the words of the
specification (HH:MM:SS DD-MM-YYYY zone-abbrev, with the local time-zone
abbreviation); used to compare the specified format against the one the
code computes. -/
def specAbsoluteFormat (dt : LocalDT) : String :=
  pad2 dt.hour ++ ":" ++ pad2 dt.minute ++ ":" ++ pad2 dt.second ++ " " ++
    pad2 dt.day ++ "-" ++ pad2 dt.month ++ "-" ++ pad4 dt.year ++ " " ++ dt.zone

/-- Model of runewidth.RuneWidth restricted to the character classes this
development evaluates: the combining diacritical marks U+0300 to U+036F
have display width zero; every other character that occurs here (ASCII,
the box-drawing glyphs) has display width one. -/
def runeWidth (c : Char) : Nat :=
  if 0x300 ≤ c.toNat ∧ c.toNat ≤ 0x36F then 0 else 1

/-- One SetContent call on the tcell screen: primary rune, combining
runes, style, at cell (x, y). -/
structure Cell where
  x : Int
  y : Int
  ch : Char
  comb : List Char
  style : Style
deriving DecidableEq, Repr

/-- Recursion of emitStr over the runes of the string: given the current
cursor column x, produce the SetContent calls and the final cursor
column. A rune of width zero is replaced by a space carrying the rune as
a combining character and the width is forced to one, exactly as in
main.go lines 190 to 202. -/
def emitStrAux (y : Int) (style : Style) : Int → List Char → List Cell × Int
  | x, [] => ([], x)
  | x, c :: rest =>
    let w := runeWidth c
    if w = 0 then
      let next := emitStrAux y style (x + 1) rest
      (⟨x, y, ' ', [c], style⟩ :: next.1, next.2)
    else
      let next := emitStrAux y style (x + w) rest
      (⟨x, y, c, [], style⟩ :: next.1, next.2)

/-- emitStr of main.go lines 190 to 202: SetContent calls plus the final
cursor column (the Go local x after the loop). -/
def emitStr (x y : Int) (style : Style) (str : String) : List Cell × Int :=
  emitStrAux y style x str.data

/-- Border glyph constants of main.go lines 204 to 211. -/
def tl : String := "╔"

def tr : String := "╗"

def vt : String := "║"

def hz : String := "═"

def bl : String := "╚"

def br : String := "╝"

/-- A Go for loop appending n spaces (n copies of the one-character
string), empty when n is not positive. -/
def spacesI (n : Int) : String := String.mk (List.replicate n.toNat ' ')

def boxSidePadding : Int := 4

/-- Body of the boxWidth loop of renderMessageBox (main.go lines 217 to
221): widen the running box width when the line does not fit. -/
def bwStep (bw : Int) (line : String) : Int :=
  if (line.length : Int) > bw - boxSidePadding then (line.length : Int) + boxSidePadding
  else bw

/-- The boxWidth loop of renderMessageBox (main.go lines 215 to 221). -/
def boxWidthOf (lines : List String) : Int :=
  lines.foldl bwStep 0

/-- The repeated horizontal glyph of the top and bottom borders: the Go
loop runs boxWidth minus 2 times (zero times when that is not positive). -/
def horizontalRun (boxWidth : Int) : String :=
  String.mk (List.replicate (boxWidth - 2).toNat '═')

def topBorder (boxWidth : Int) : String := tl ++ horizontalRun boxWidth ++ tr

def bottomBorder (boxWidth : Int) : String := bl ++ horizontalRun boxWidth ++ br

/-- One content row of the message box (main.go lines 241 to 255):
border, left padding, the text, right padding, border, with the pad
widths computed by truncating integer division. -/
def renderLine (boxWidth : Int) (line : String) : String :=
  let leftSpacePad := Int.tdiv (boxWidth - line.length - boxSidePadding) 2 + 1
  let rightSpacePad := boxWidth - line.length - leftSpacePad - 2
  vt ++ spacesI leftSpacePad ++ line ++ spacesI rightSpacePad ++ vt

/-- One emitStr call made by renderMessageBox: position, style, text. -/
structure Emission where
  x : Int
  y : Int
  style : Style
  text : String
deriving DecidableEq, Repr

/-- The emitStr calls for the content rows, at rows boxTop plus one
upward, one row per line (main.go lines 258 to 260). -/
def emitLines (boxLeft : Int) (style : Style) : Int → List String → List Emission
  | _, [] => []
  | y, l :: ls => ⟨boxLeft, y, style, l⟩ :: emitLines boxLeft style (y + 1) ls

/-- renderMessageBox of main.go lines 213 to 262, modelled as the list of
emitStr calls it performs: top border, one row per line, bottom border. -/
def renderMessageBox (lines : List String) (boxLeft boxTop : Int) (style : Style) :
    List Emission :=
  let boxWidth := boxWidthOf lines
  let renderLines := lines.map (renderLine boxWidth)
  ⟨boxLeft, boxTop, style, topBorder boxWidth⟩ ::
    (emitLines boxLeft style (boxTop + 1) renderLines ++
      [⟨boxLeft, boxTop + renderLines.length + 1, style, bottomBorder boxWidth⟩])

/-- Body of the longestLine loop of renderPipelineStage (main.go lines 87
to 92): keep the larger of the running maximum and the line length. -/
def maxStep (acc : Int) (line : String) : Int :=
  if (line.length : Int) > acc then (line.length : Int) else acc

/-- The longestLine loop of renderPipelineStage (main.go lines 87 to 92). -/
def longestLineOf (lines : List String) : Int :=
  lines.foldl maxStep 0

/-- The LatestExecution of an action state: execution status string and
the LastStatusChange timestamp. The SDK fields are pointers; the fields
the code dereferences are modelled as present values and the pointer that
can be nil wholesale (LatestExecution) as an Option at the ActionState. -/
structure Execution where
  status : String
  lastStatusChange : GoTime
deriving DecidableEq, Repr

/-- An entry of StageState.ActionStates. -/
structure ActionState where
  latestExecution : Option Execution
deriving DecidableEq, Repr

/-- codepipeline.StageState as read by renderPipelineStage. -/
structure StageState where
  stageName : String
  actionStates : List ActionState
deriving DecidableEq, Repr

/-- The data renderPipelineStage hands to renderMessageBox: the three
lines, the left and top coordinates, and the style. -/
structure RenderBox where
  lines : List String
  left : Int
  top : Int
  style : Style
deriving DecidableEq, Repr

/-- renderPipelineStage of main.go lines 76 to 101, modelled up to the
renderMessageBox call it makes. w is the screen width from Size. The
result is none exactly where the Go code panics: indexing ActionStates[0]
of an empty slice, or dereferencing a nil LatestExecution. -/
def renderPipelineStage (w : Int) (now : GoTime) (top : Int) (state : StageState) :
    Option RenderBox :=
  match state.actionStates.head? with
  | none => none
  | some action =>
    match action.latestExecution with
    | none => none
    | some latest =>
      let lines := [state.stageName, latest.status,
        prettyPrintTime now latest.lastStatusChange]
      some ⟨lines, Int.tdiv (w - longestLineOf lines) 2, top,
        styleDefault.foreground (colorFor latest.status)⟩

/-- The two channel events the select of renderPipelineLoop can observe:
a ticker fire, or the quit channel closed by the Escape listener. -/
inductive LoopEvent where
  | tick
  | quit
deriving DecidableEq, Repr

/-- Observable loop effects: one renderPipeline frame, or the single
Fini call on the screen. -/
inductive LoopAction where
  | render
  | fini
deriving DecidableEq, Repr

/-- The select loop of renderPipelineLoop (main.go lines 143 to 151) run
over a serialized list of channel events. poll k is the outcome of the
k-th GetPipelineState call made inside renderPipeline; a poll error is a
panic, which aborts the process before any further action (modelled by
Except.error). On quit the screen is finalized once and the loop returns.
An exhausted event list leaves the loop blocked in select: no further
actions are observed. -/
def loopEvents (poll : Nat → Except RemoteError Unit) :
    Nat → List LoopEvent → Except RemoteError (List LoopAction)
  | _, [] => Except.ok []
  | _, LoopEvent.quit :: _ => Except.ok [LoopAction.fini]
  | k, LoopEvent.tick :: rest =>
    match poll k with
    | Except.error e => Except.error e
    | Except.ok _ => (loopEvents poll (k + 1) rest).map (fun tr => LoopAction.render :: tr)

/-- renderPipelineLoop of main.go lines 123 to 152: the first frame is
rendered before the loop is entered (poll number zero), then the select
loop runs over the events. -/
def renderPipelineLoop (poll : Nat → Except RemoteError Unit)
    (events : List LoopEvent) : Except RemoteError (List LoopAction) :=
  match poll 0 with
  | Except.error e => Except.error e
  | Except.ok _ => (loopEvents poll 1 events).map (fun tr => LoopAction.render :: tr)

/-- A collaborator whose GetPipelineState always succeeds. -/
def allPollsOk : Nat → Except RemoteError Unit := fun _ => Except.ok ()

/-- Whether a loop run returned normally with the screen finalized. -/
def finishedOk (r : Except RemoteError (List LoopAction)) : Bool :=
  match r with
  | Except.ok tr => tr.contains LoopAction.fini
  | Except.error _ => false

/-- How many Fini calls a loop run performed. -/
def finiCount (r : Except RemoteError (List LoopAction)) : Nat :=
  match r with
  | Except.ok tr => tr.count LoopAction.fini
  | Except.error _ => 0

/-- pipelineNames of main.go lines 46 to 59: ListPipelinesPages either
fails (the code panics, modelled Except.error) or delivers pages of
names, all of which are appended in order because the page callback
returns true until the last page. -/
def pipelineNames (listResult : Except RemoteError (List (List String))) :
    Except RemoteError (List String) :=
  match listResult with
  | Except.error e => Except.error e
  | Except.ok pages => Except.ok pages.flatten

/-- printPipelineNames of main.go lines 61 to 65: one Println per name. -/
def printPipelineNames (names : List String) : String :=
  String.join (names.map (fun n => n ++ "\n"))

/-- The usage banner Printf of Run (main.go lines 171 to 179) with
os.Args[0] substituted for both percent-s verbs. -/
def usageBanner (prog : String) : String :=
  "USAGE:\n\n\t// Show pipeline status\n\t" ++ prog ++
    " <pipeline-name>\n\n\t// List all pipeline names (no arguments)\n\t" ++ prog ++ "\n\n"

/-- Outcome of Run: the listing path (stdout text and the os.Exit code),
the monitoring path (renderPipelineLoop entered on the given name), or a
panic from pipelineNames. -/
inductive RunResult where
  | listed (stdout : String) (exitCode : Nat)
  | monitor (pipelineName : String)
  | failed (e : RemoteError)
deriving DecidableEq, Repr

/-- Run of main.go lines 169 to 187. args is os.Args (program name
first). With fewer than two entries: usage banner, header line, pipeline
names one per line, exit code zero; otherwise renderPipelineLoop is
entered on args index one. -/
def Run (args : List String) (listResult : Except RemoteError (List (List String))) :
    RunResult :=
  if args.length < 2 then
    match pipelineNames listResult with
    | Except.error e => RunResult.failed e
    | Except.ok names =>
      RunResult.listed
        (usageBanner (args.headD "") ++ "====== PIPELINES ======\n" ++
          printPipelineNames names) 0
  else
    RunResult.monitor (args.getD 1 "")

/-- A broken-down time used by concrete evaluations. -/
def dtNoon : LocalDT := ⟨12, 0, 0, 15, 6, 2021, "UTC"⟩

/-! Helper lemmas shared by the claim theorems. -/

theorem tdivNonposOfNeg (a b : Int) (ha : a < 0) (hb : 0 < b) : Int.tdiv a b ≤ 0 := by
  have h2 : Int.tdiv (-a) b = (-a) / b := Int.tdiv_eq_ediv (by omega) (by omega)
  have h1 : Int.tdiv a b = -((-a) / b) := by rw [← h2, Int.neg_tdiv, neg_neg]
  have h3 : 0 ≤ (-a) / b := Int.ediv_nonneg (by omega) (by omega)
  rw [h1]
  exact neg_nonpos.mpr h3

theorem leTdiv (a b c : Int) (hb : 0 < b) (hc : 0 ≤ c) (h : c * b ≤ a) :
    c ≤ Int.tdiv a b := by
  have ha : 0 ≤ a := le_trans (by positivity) h
  rw [Int.tdiv_eq_ediv ha (by omega)]
  exact (Int.le_ediv_iff_mul_le hb).mpr h

theorem tdivLt (a b c : Int) (hb : 0 < b) (ha : 0 ≤ a) (h : a < c * b) :
    Int.tdiv a b < c := by
  rw [Int.tdiv_eq_ediv ha (by omega)]
  exact (Int.ediv_lt_iff_lt_mul hb).mpr h

theorem emitStrAuxSpec (y : Int) (st : Style) (cs : List Char) : ∀ x : Int,
    (emitStrAux y st x cs).2 =
      x + (cs.map (fun c => if runeWidth c = 0 then (1 : Int) else (runeWidth c : Int))).sum ∧
    (emitStrAux y st x cs).1.length = cs.length := by
  induction cs with
  | nil => intro x; simp [emitStrAux]
  | cons c rest ih =>
    intro x
    have e1 : emitStrAux y st x (c :: rest) =
        if runeWidth c = 0 then
          (⟨x, y, ' ', [c], st⟩ :: (emitStrAux y st (x + 1) rest).1,
            (emitStrAux y st (x + 1) rest).2)
        else
          (⟨x, y, c, [], st⟩ :: (emitStrAux y st (x + (runeWidth c : Int)) rest).1,
            (emitStrAux y st (x + (runeWidth c : Int)) rest).2) := rfl
    by_cases hw : runeWidth c = 0
    · rw [e1, if_pos hw]
      refine ⟨?_, ?_⟩
      · show (emitStrAux y st (x + 1) rest).2 = _
        rw [(ih (x + 1)).1]
        simp only [List.map_cons, List.sum_cons, hw, if_pos]
        omega
      · show ((⟨x, y, ' ', [c], st⟩ : Cell) :: (emitStrAux y st (x + 1) rest).1).length =
          (c :: rest).length
        simp [(ih (x + 1)).2]
    · rw [e1, if_neg hw]
      refine ⟨?_, ?_⟩
      · show (emitStrAux y st (x + (runeWidth c : Int)) rest).2 = _
        rw [(ih (x + (runeWidth c : Int))).1]
        simp only [List.map_cons, List.sum_cons, hw, if_neg, if_false]
        omega
      · show ((⟨x, y, c, [], st⟩ : Cell) ::
            (emitStrAux y st (x + (runeWidth c : Int)) rest).1).length = (c :: rest).length
        simp [(ih (x + (runeWidth c : Int))).2]

theorem bwStepShift (m : Int) (l : String) :
    bwStep (m + 4) l = maxStep m l + 4 := by
  unfold bwStep maxStep boxSidePadding
  have h4 : m + 4 - 4 = m := by ring
  rw [h4]
  by_cases hc : (l.length : Int) > m
  · rw [if_pos hc, if_pos hc]
  · rw [if_neg hc, if_neg hc]

theorem maxStepNonneg (m : Int) (l : String) (hm : 0 ≤ m) : 0 ≤ maxStep m l := by
  unfold maxStep
  split
  · exact Int.natCast_nonneg _
  · exact hm

theorem foldlBwShift (ls : List String) : ∀ m : Int, 0 ≤ m →
    ls.foldl bwStep (m + 4) = ls.foldl maxStep m + 4 := by
  induction ls with
  | nil => intro m _; rfl
  | cons l ls ih =>
    intro m hm
    show ls.foldl bwStep (bwStep (m + 4) l) = ls.foldl maxStep (maxStep m l) + 4
    rw [bwStepShift m l]
    exact ih (maxStep m l) (maxStepNonneg m l hm)

theorem boxWidthEqLongest (lines : List String) (hne : lines ≠ []) :
    boxWidthOf lines = longestLineOf lines + 4 := by
  cases lines with
  | nil => exact absurd rfl hne
  | cons l ls =>
    show ls.foldl bwStep (bwStep 0 l) = ls.foldl maxStep (maxStep 0 l) + 4
    have h1 : bwStep 0 l = (l.length : Int) + 4 := by
      unfold bwStep boxSidePadding
      rw [if_pos (by have := Int.natCast_nonneg l.length; omega)]
    have h2 : maxStep 0 l = (l.length : Int) := by
      unfold maxStep
      split
      · rfl
      · omega
    rw [h1, h2, ← foldlBwShift ls (l.length : Int) (Int.natCast_nonneg _)]

theorem foldlMaxInitLe (ls : List String) : ∀ m : Int, m ≤ ls.foldl maxStep m := by
  induction ls with
  | nil => intro m; exact le_refl m
  | cons l ls ih =>
    intro m
    refine le_trans ?_ (ih (maxStep m l))
    unfold maxStep
    split
    · omega
    · exact le_refl m

theorem foldlMaxMemLe (ls : List String) : ∀ (m : Int) (l : String), l ∈ ls →
    (l.length : Int) ≤ ls.foldl maxStep m := by
  induction ls with
  | nil => intro m l hl; cases hl
  | cons a ls ih =>
    intro m l hl
    cases hl with
    | head =>
      refine le_trans ?_ (foldlMaxInitLe ls (maxStep m a))
      unfold maxStep
      split
      · exact le_refl _
      · omega
    | tail _ hmem => exact ih (maxStep m a) l hmem

theorem longestLineMemLe (lines : List String) (l : String) (hl : l ∈ lines) :
    (l.length : Int) ≤ longestLineOf lines :=
  foldlMaxMemLe lines 0 l hl

theorem emitLinesLength (L : Int) (st : Style) (ls : List String) : ∀ y : Int,
    (emitLines L st y ls).length = ls.length := by
  induction ls with
  | nil => intro y; rfl
  | cons l ls ih => intro y; simp [emitLines, ih (y + 1)]

theorem emitLinesGet (L : Int) (st : Style) (ls : List String) : ∀ (y : Int) (i : Nat),
    i < ls.length →
      (emitLines L st y ls).get? i = some ⟨L, y + i, st, ls.getD i ""⟩ := by
  induction ls with
  | nil => intro y i hi; cases hi
  | cons l ls ih =>
    intro y i hi
    cases i with
    | zero => simp [emitLines]
    | succ j =>
      have hj : j < ls.length := by simpa using hi
      show (emitLines L st (y + 1) ls).get? j = _
      rw [ih (y + 1) j hj]
      have hy : y + 1 + (j : Int) = y + ((j : Nat) + 1 : Nat) := by push_cast; ring
      rw [hy]
      rfl

theorem loopEventsOk (events : List LoopEvent) : ∀ k : Nat,
    ∃ tr : List LoopAction, loopEvents allPollsOk k events = Except.ok tr ∧
      tr.contains LoopAction.fini = events.contains LoopEvent.quit ∧
      tr.count LoopAction.fini = (if events.contains LoopEvent.quit then 1 else 0) := by
  induction events with
  | nil => intro k; exact ⟨[], rfl, rfl, rfl⟩
  | cons e rest ih =>
    intro k
    cases e with
    | quit => exact ⟨[LoopAction.fini], rfl, rfl, rfl⟩
    | tick =>
      obtain ⟨tr, h1, h2, h3⟩ := ih (k + 1)
      have e1 : (LoopAction.fini == LoopAction.render) = false := by decide
      have e2 : (LoopEvent.quit == LoopEvent.tick) = false := by decide
      have e3 : (LoopAction.render == LoopAction.fini) = false := by decide
      refine ⟨LoopAction.render :: tr, ?_, ?_, ?_⟩
      · show (loopEvents allPollsOk (k + 1) rest).map _ = _
        rw [h1]
        rfl
      · rw [List.contains_cons, List.contains_cons, e1, e2, Bool.false_or, Bool.false_or]
        exact h2
      · rw [List.count_cons, e3, List.contains_cons, e2, Bool.false_or]
        simpa using h3

theorem loopEventsTickStep (poll : Nat → Except RemoteError Unit) (k : Nat)
    (rest : List LoopEvent) :
    loopEvents poll k (LoopEvent.tick :: rest) =
      match poll k with
      | Except.error err => Except.error err
      | Except.ok _ => (loopEvents poll (k + 1) rest).map (fun tr => LoopAction.render :: tr) :=
  rfl

theorem loopEventsFailAfter (e : RemoteError) (n : Nat) : ∀ (m k : Nat)
    (events : List LoopEvent), k + m = n + 1 →
    loopEvents (fun j => if j ≤ n then Except.ok () else Except.error e) k
      (List.replicate m LoopEvent.tick ++ LoopEvent.tick :: events) = Except.error e := by
  intro m
  induction m with
  | zero =>
    intro k events hk
    have hk1 : k = n + 1 := by omega
    subst hk1
    rw [show (List.replicate 0 LoopEvent.tick ++ LoopEvent.tick :: events) =
        LoopEvent.tick :: events from rfl]
    rw [loopEventsTickStep]
    rw [if_neg (by omega : ¬ (n + 1 ≤ n))]
  | succ m ih =>
    intro k events hk
    have hkn : k ≤ n := by omega
    rw [show (List.replicate (m + 1) LoopEvent.tick ++ LoopEvent.tick :: events) =
        LoopEvent.tick :: (List.replicate m LoopEvent.tick ++ LoopEvent.tick :: events) from rfl]
    rw [loopEventsTickStep]
    rw [if_pos hkn]
    show (loopEvents _ (k + 1) _).map _ = _
    rw [ih (k + 1) events (by omega)]
    rfl

theorem loopFailAfterCycles (e : RemoteError) (n : Nat) (events : List LoopEvent) :
    renderPipelineLoop (fun k => if k ≤ n then Except.ok () else Except.error e)
      (List.replicate n LoopEvent.tick ++ LoopEvent.tick :: events) = Except.error e := by
  show (match (if 0 ≤ n then Except.ok () else Except.error e) with
    | Except.error err => Except.error err
    | Except.ok _ =>
      (loopEvents (fun j => if j ≤ n then Except.ok () else Except.error e) 1
        (List.replicate n LoopEvent.tick ++ LoopEvent.tick :: events)).map
        (fun tr => LoopAction.render :: tr)) = Except.error e
  rw [if_pos (Nat.zero_le n)]
  show (loopEvents _ 1 _).map _ = _
  rw [loopEventsFailAfter e n n 1 events (by omega)]
  rfl

/-! Claim theorems. -/

/-- C1: for now minus t equal to 90 seconds, prettyPrintTime prints the
total elapsed second count next to the minute count, yielding the string
with 90 seconds, not the remainder form with 30 seconds that the
specification states. -/
theorem c1_minutes_branch_prints_total_seconds :
    prettyPrintTime ⟨90 * nsPerSecond, dtNoon⟩ ⟨0, dtNoon⟩ = "1 minutes, 90 seconds ago" ∧
    prettyPrintTime ⟨90 * nsPerSecond, dtNoon⟩ ⟨0, dtNoon⟩ ≠ "1 minutes, 30 seconds ago" :=
  ⟨by decide, by decide⟩

/-- C2 counterexample: for the two-rune string of a letter e followed by
the combining acute accent U+0301, emitStr starting at column 0 leaves
the cursor at column 2, not at column 1, the sum of the display widths of
the base characters only; the accent is written into its own cell as a
space carrying the combining rune, not attached to the cell of the e. -/
theorem c2_zero_width_advances_counterexample :
    (emitStr 0 0 styleDefault (String.mk ['e', Char.ofNat 0x301])).2 ≠
      0 + (runeWidth 'e' : Int) ∧
    (emitStr 0 0 styleDefault (String.mk ['e', Char.ofNat 0x301])).1 =
      [⟨0, 0, 'e', [], styleDefault⟩, ⟨1, 0, ' ', [Char.ofNat 0x301], styleDefault⟩] :=
  ⟨by decide, by decide⟩

/-- C2 amended: a zero-width combining character is written into a cell
of its own (a space carrying the combining rune) and advances the cursor
by one; the cells consumed by emitStr equal the sum over all runes of
their display width with zero replaced by one, and one SetContent call is
made per rune. -/
theorem c2_zero_width_own_cell (x y : Int) (st : Style) (s : String) :
    (emitStr x y st s).2 =
      x + (s.data.map
        (fun c => if runeWidth c = 0 then (1 : Int) else (runeWidth c : Int))).sum ∧
    (emitStr x y st s).1.length = s.data.length :=
  emitStrAuxSpec y st s.data x

/-- C5: the status-to-color mapping is total: Succeeded maps to green,
and any status string outside the six mapped enum values resolves to the
zero value of tcell.Color (ColorDefault) rather than failing. -/
theorem c5_status_color_total :
    colorFor "Succeeded" = Color.green ∧
    ∀ s : String,
      s ∉ ["Succeeded", "InProgress", "Failed", "Cancelled", "Stopped", "Stopping"] →
        colorFor s = Color.defaultColor := by
  refine ⟨by decide, ?_⟩
  intro s hs
  simp only [List.mem_cons, List.not_mem_nil, or_false, not_or] at hs
  obtain ⟨n1, n2, n3, n4, n5, n6⟩ := hs
  have b1 : (("Succeeded" : String) == s) = false := beq_eq_false_iff_ne.mpr (Ne.symm n1)
  have b2 : (("InProgress" : String) == s) = false := beq_eq_false_iff_ne.mpr (Ne.symm n2)
  have b3 : (("Failed" : String) == s) = false := beq_eq_false_iff_ne.mpr (Ne.symm n3)
  have b4 : (("Cancelled" : String) == s) = false := beq_eq_false_iff_ne.mpr (Ne.symm n4)
  have b5 : (("Stopped" : String) == s) = false := beq_eq_false_iff_ne.mpr (Ne.symm n5)
  have b6 : (("Stopping" : String) == s) = false := beq_eq_false_iff_ne.mpr (Ne.symm n6)
  simp [colorFor, statusColors, List.find?, b1, b2, b3, b4, b5, b6]

/-- C5 witness: the Succeeded color and the fallback at the concrete
unmapped status Unknown. -/
theorem c5_status_color_total_witness :
    colorFor "Succeeded" = Color.green ∧ colorFor "Unknown" = Color.defaultColor :=
  ⟨c5_status_color_total.1, c5_status_color_total.2 "Unknown" (by decide)⟩

/-- C6: with every poll succeeding, the loop run over the event sequence
tick, tick, quit renders one first frame immediately, performs exactly
two tick-driven render cycles, and finalizes the screen exactly once at
the end; and over any event sequence the loop finishes with Fini exactly
when the quit signal occurs in the sequence, with exactly one Fini call
then and none otherwise. -/
theorem c6_refresh_loop_trace :
    renderPipelineLoop allPollsOk [LoopEvent.tick, LoopEvent.tick, LoopEvent.quit] =
      Except.ok [LoopAction.render, LoopAction.render, LoopAction.render, LoopAction.fini] ∧
    ∀ events : List LoopEvent,
      finishedOk (renderPipelineLoop allPollsOk events) = events.contains LoopEvent.quit ∧
      finiCount (renderPipelineLoop allPollsOk events) =
        (if events.contains LoopEvent.quit then 1 else 0) := by
  refine ⟨rfl, ?_⟩
  intro events
  obtain ⟨tr, h1, h2, h3⟩ := loopEventsOk events 1
  have hloop : renderPipelineLoop allPollsOk events = Except.ok (LoopAction.render :: tr) := by
    show (loopEvents allPollsOk 1 events).map _ = _
    rw [h1]
    rfl
  have e1 : (LoopAction.fini == LoopAction.render) = false := by decide
  have e3 : (LoopAction.render == LoopAction.fini) = false := by decide
  refine ⟨?_, ?_⟩
  · rw [hloop]
    show (LoopAction.render :: tr).contains LoopAction.fini = _
    rw [List.contains_cons, e1, Bool.false_or]
    exact h2
  · rw [hloop]
    show (LoopAction.render :: tr).count LoopAction.fini = _
    rw [List.count_cons, e3]
    simpa using h3

/-- C7: a RemoteError from the collaborator is surfaced immediately and
aborts the run: pipelineNames propagates a listing error unchanged, Run
fails on it in the zero-argument path, a failing initial poll aborts
renderPipelineLoop before any frame, and a poll failing during any
refresh cycle aborts the loop with no skip, retry, or recovery: for
every n, a collaborator whose polls succeed up to and including the
n-th one and fail afterwards lets n refresh cycles complete and then
aborts the whole run with the error on the next cycle (the final
conjunct; the one before it is the first-cycle instance). -/
theorem c7_remote_error_fatal :
    (∀ e : RemoteError, pipelineNames (Except.error e) = Except.error e) ∧
    (∀ (prog : String) (e : RemoteError),
      Run [prog] (Except.error e) = RunResult.failed e) ∧
    (∀ (e : RemoteError) (events : List LoopEvent),
      renderPipelineLoop (fun _ => Except.error e) events = Except.error e) ∧
    (∀ (e : RemoteError) (events : List LoopEvent),
      renderPipelineLoop (fun k => if k = 0 then Except.ok () else Except.error e)
        (LoopEvent.tick :: events) = Except.error e) ∧
    (∀ (e : RemoteError) (n : Nat) (events : List LoopEvent),
      renderPipelineLoop (fun k => if k ≤ n then Except.ok () else Except.error e)
        (List.replicate n LoopEvent.tick ++ LoopEvent.tick :: events) = Except.error e) :=
  ⟨fun _ => rfl, fun _ _ => rfl, fun _ _ => rfl, fun _ _ => rfl,
    fun e n events => loopFailAfterCycles e n events⟩

/-- C8: invoked with zero user arguments (os.Args holding only the
program name) against a successful collaborator, the program prints the
usage banner, then the PIPELINES header line, then exactly the pipeline
names in order, one per line, and exits with status code 0. -/
theorem c8_zero_args_listing (prog : String) (pages : List (List String)) :
    Run [prog] (Except.ok pages) =
      RunResult.listed
        (usageBanner prog ++ "====== PIPELINES ======\n" ++
          printPipelineNames pages.flatten) 0 := rfl

/-- C9: renderPipelineStage reads only the first entry of ActionStates:
the rendering is unchanged by whatever follows the first action, its
displayed status and timestamp lines and its color come from the first
action alone, and a stage with an empty ActionStates sequence makes the
rendering step fail instead of producing a box. -/
theorem c9_first_action_only (w : Int) (now : GoTime) (top : Int) (name : String)
    (a : ActionState) (rest rest2 : List ActionState) :
    renderPipelineStage w now top ⟨name, a :: rest⟩ =
      renderPipelineStage w now top ⟨name, a :: rest2⟩ ∧
    (∀ ex : Execution,
      (renderPipelineStage w now top ⟨name, [⟨some ex⟩]⟩).map RenderBox.lines =
        some [name, ex.status, prettyPrintTime now ex.lastStatusChange] ∧
      (renderPipelineStage w now top ⟨name, [⟨some ex⟩]⟩).map RenderBox.style =
        some (styleDefault.foreground (colorFor ex.status))) ∧
    renderPipelineStage w now top ⟨name, []⟩ = none :=
  ⟨rfl, fun _ => ⟨rfl, rfl⟩, rfl⟩

/-- C10: when t lies strictly in the future of now, prettyPrintTime takes
the relative-seconds branch and prints the negative truncated second
count; no clamping to zero occurs. -/
theorem c10_future_negative_seconds (now t : GoTime) (h : now.ns - t.ns < 0) :
    prettyPrintTime now t =
      toString (Int.tdiv (now.ns - t.ns) nsPerSecond) ++ " seconds ago" := by
  have hm : Int.tdiv (now.ns - t.ns) nsPerMinute ≤ 0 :=
    tdivNonposOfNeg _ _ h (by norm_num [nsPerMinute])
  have h1 : ¬ (30 ≤ Int.tdiv (now.ns - t.ns) nsPerMinute) := by omega
  have h2 : ¬ (0 < Int.tdiv (now.ns - t.ns) nsPerMinute) := by omega
  simp [prettyPrintTime, h1, h2]

/-- C10 witness: t five seconds in the future of now yields the string
minus five seconds ago. -/
theorem c10_future_negative_seconds_witness :
    prettyPrintTime ⟨0, dtNoon⟩ ⟨5 * nsPerSecond, dtNoon⟩ = "-5 seconds ago" := by
  rw [c10_future_negative_seconds ⟨0, dtNoon⟩ ⟨5 * nsPerSecond, dtNoon⟩ (by decide)]
  decide

theorem renderLineEq (M : Int) (line : String) :
    renderLine (M + 4) line =
      vt ++ spacesI (Int.tdiv (M - (line.length : Int)) 2 + 1) ++ line ++
        spacesI (M - (line.length : Int) - Int.tdiv (M - (line.length : Int)) 2 + 1) ++ vt := by
  simp only [renderLine, boxSidePadding]
  have h1 : M + 4 - (line.length : Int) - 4 = M - (line.length : Int) := by ring
  rw [h1]
  have h2 : M + 4 - (line.length : Int) - (Int.tdiv (M - (line.length : Int)) 2 + 1) - 2 =
      M - (line.length : Int) - Int.tdiv (M - (line.length : Int)) 2 + 1 := by ring
  rw [h2]

/-- C3 counterexample: in the box for the lines A and BB, the row for A
has one space left of the text and two spaces right of it; the claimed
left bias would put the extra space on the left instead. -/
theorem c3_left_bias_counterexample :
    (renderMessageBox ["A", "BB"] 0 0 styleDefault).get? 1 ≠
      some ⟨0, 1, styleDefault, "║  A ║"⟩ ∧
    (renderMessageBox ["A", "BB"] 0 0 styleDefault).get? 1 =
      some ⟨0, 1, styleDefault, "║ A  ║"⟩ :=
  ⟨by decide, by decide⟩

/-- C3 amended: every content row of renderMessageBox centers its line
in the box interior with the left padding computed by truncating integer
division, so when the leftover interior space is odd the extra space goes
to the right of the text, not to the left. -/
theorem c3_content_rows_right_bias (lines : List String) (left top : Int) (st : Style)
    (i : Nat) (h : i < lines.length) :
    (renderMessageBox lines left top st).get? (i + 1) =
      some ⟨left, top + i + 1, st,
        vt ++ spacesI (Int.tdiv (longestLineOf lines - ((lines.getD i "").length : Int)) 2 + 1) ++
          lines.getD i "" ++
          spacesI (longestLineOf lines - ((lines.getD i "").length : Int) -
            Int.tdiv (longestLineOf lines - ((lines.getD i "").length : Int)) 2 + 1) ++ vt⟩ ∧
    Int.tdiv (longestLineOf lines - ((lines.getD i "").length : Int)) 2 ≤
      longestLineOf lines - ((lines.getD i "").length : Int) -
        Int.tdiv (longestLineOf lines - ((lines.getD i "").length : Int)) 2 := by
  have hne : lines ≠ [] := by
    intro he
    rw [he] at h
    simp at h
  have hbw : boxWidthOf lines = longestLineOf lines + 4 := boxWidthEqLongest lines hne
  have hmem : lines.getD i "" ∈ lines := by
    rw [List.getD_eq_get lines "" h]
    exact List.get_mem lines i h
  have hle : ((lines.getD i "").length : Int) ≤ longestLineOf lines :=
    longestLineMemLe lines _ hmem
  have hd : 0 ≤ longestLineOf lines - ((lines.getD i "").length : Int) := by omega
  constructor
  · show (⟨left, top, st, topBorder (boxWidthOf lines)⟩ ::
        (emitLines left st (top + 1) (lines.map (renderLine (boxWidthOf lines))) ++
          [⟨left, top + (lines.map (renderLine (boxWidthOf lines))).length + 1, st,
            bottomBorder (boxWidthOf lines)⟩])).get? (i + 1) = _
    rw [List.get?_cons_succ]
    rw [List.get?_append (by rw [emitLinesLength]; simpa using h)]
    rw [emitLinesGet left st _ (top + 1) i (by simpa using h)]
    have hy : top + 1 + (i : Int) = top + i + 1 := by ring
    have hmap : (lines.map (renderLine (boxWidthOf lines))).getD i "" =
        renderLine (boxWidthOf lines) (lines.getD i "") := by
      rw [List.getD_eq_get _ _ (by simpa using h), List.getD_eq_get lines "" h, List.get_map]
    rw [hy, hmap, hbw, renderLineEq]
  · rw [Int.tdiv_eq_ediv hd (by omega)]
    omega

/-- C3 witness: the concrete box for the lines A and BB at the first
content row, with the leftover of one space going to the right. -/
theorem c3_content_rows_right_bias_witness :
    (renderMessageBox ["A", "BB"] 0 0 styleDefault).get? 1 =
      some ⟨0, 1, styleDefault, "║ A  ║"⟩ ∧
    Int.tdiv 1 2 ≤ 1 - Int.tdiv 1 2 := by
  have h := c3_content_rows_right_bias ["A", "BB"] 0 0 styleDefault 0 (by decide)
  exact ⟨h.1, h.2⟩

/-- C4 amended: a difference of at least 30 minutes (the boundary
included) selects the absolute branch, which formats t with the layout
of dateFormat; that layout renders the letters P and T literally, so the
output is independent of the zone abbreviation of the local time and
does not end in it. Any smaller non-negative difference selects the
relative form. -/
theorem c4_absolute_boundary_literal_zone (now t : GoTime) :
    (30 * nsPerMinute ≤ now.ns - t.ns →
      prettyPrintTime now t = goFormat dateFormat t.localTime ∧
      ∀ z : String, goFormat dateFormat { t.localTime with zone := z } =
        goFormat dateFormat t.localTime) ∧
    (0 ≤ now.ns - t.ns → now.ns - t.ns < 30 * nsPerMinute →
      prettyPrintTime now t =
        if 0 < Int.tdiv (now.ns - t.ns) nsPerMinute then
          toString (Int.tdiv (now.ns - t.ns) nsPerMinute) ++ " minutes, " ++
            toString (Int.tdiv (now.ns - t.ns) nsPerSecond) ++ " seconds ago"
        else toString (Int.tdiv (now.ns - t.ns) nsPerSecond) ++ " seconds ago") := by
  constructor
  · intro h
    have h30 : (30 : Int) ≤ Int.tdiv (now.ns - t.ns) nsPerMinute :=
      leTdiv _ _ _ (by decide) (by decide) h
    refine ⟨by simp [prettyPrintTime, h30], fun z => rfl⟩
  · intro h0 hlt
    have hltd : Int.tdiv (now.ns - t.ns) nsPerMinute < 30 :=
      tdivLt _ _ _ (by decide) h0 hlt
    have hn : ¬ ((30 : Int) ≤ Int.tdiv (now.ns - t.ns) nsPerMinute) := by omega
    simp [prettyPrintTime, hn]

/-- C4 counterexample: at a difference of 40 minutes with local zone
abbreviation UTC, prettyPrintTime ends in the literal letters PT, not in
the zone abbreviation the specification states. -/
theorem c4_zone_abbrev_counterexample :
    prettyPrintTime ⟨40 * nsPerMinute, dtNoon⟩ ⟨0, dtNoon⟩ ≠ specAbsoluteFormat dtNoon ∧
    prettyPrintTime ⟨40 * nsPerMinute, dtNoon⟩ ⟨0, dtNoon⟩ = "12:00:00 15-06-2021 PT" ∧
    specAbsoluteFormat dtNoon = "12:00:00 15-06-2021 UTC" :=
  ⟨by decide, by decide, by decide⟩

/-- C4 witness: the boundary difference of exactly 30 minutes takes the
absolute branch and its output ignores the zone abbreviation; the 90
second difference takes the relative branch. -/
theorem c4_absolute_boundary_literal_zone_witness :
    (prettyPrintTime ⟨30 * nsPerMinute, dtNoon⟩ ⟨0, dtNoon⟩ = goFormat dateFormat dtNoon ∧
      goFormat dateFormat { dtNoon with zone := "CET" } = goFormat dateFormat dtNoon) ∧
    prettyPrintTime ⟨90 * nsPerSecond, dtNoon⟩ ⟨0, dtNoon⟩ = "1 minutes, 90 seconds ago" := by
  refine ⟨?_, ?_⟩
  · have h := (c4_absolute_boundary_literal_zone ⟨30 * nsPerMinute, dtNoon⟩ ⟨0, dtNoon⟩).1
      (by decide)
    exact ⟨h.1, h.2 "CET"⟩
  · exact (c4_absolute_boundary_literal_zone ⟨90 * nsPerSecond, dtNoon⟩ ⟨0, dtNoon⟩).2
      (by decide) (by decide)
